import Mathlib

/-!
# Verification of the matiks leaderboard core

A shallow embedding of the leaderboard subsystem of the matiks repository:

* `backend/cache/cache.go` — the in-memory user cache (`Entry`, `Set`,
  `SearchByPrefix`, `GetAllWithIDs`);
* `backend/engine/snapshot.go` — the ranking snapshot (`RankedEntry`,
  `Rebuild`, `GetLeaderboard`, `GetRank`);
* `backend/services/leaderboard.go` — the service layer with the debounced
  rebuild scheduler (`scheduleRebuild`, `executeRebuild`, `ForceRebuild`,
  `CreateUser`, `UpdateScore`, `BulkUpdateRandom`, `Stats`).

Modelling conventions:

* Go `int`/`int64` values are embedded as `Int` (no arithmetic here relies on
  64-bit wrap-around); ranks, which are always list positions plus one, are
  embedded as `Nat`.
* A Go map is embedded as an association list.  Go's map iteration order is
  unspecified, so every operation that ranges over a map takes the
  materialized list as input and claims about maps quantify over
  permutations of that list.
* Go string comparison (`<`), `strings.ToLower` and `strings.HasPrefix` are
  embedded as recursions over `String.data` (Go compares bytes; for the
  character data in play the codepoint order used here agrees with it).
* `sort.Slice(x, less)` guarantees exactly that the result is a permutation
  of the input that is ordered by `less` (it is not a stable sort).  It is
  embedded as `List.insertionSort` with the relation `fun a b => less b a =
  false`; every ordering-related theorem only uses that the output is an
  ordered permutation, which is what the Go contract gives.
* Go slice expressions `s[a:b]` panic unless `0 ≤ a ≤ b ≤ len s`; functions
  embedding code with slicing return `Option`, `none` being the panic.
* `float64` statistics are embedded as `Rat` with exact division.
* A MongoDB call is embedded as an oracle argument of type `Except ε α`
  giving the outcome of that call; wall-clock instants are `Int`
  millisecond timestamps passed in as `now` arguments.
-/

/-- Embedding of Go `s1 < s2` on the character data of strings:
lexicographic order on the character lists. -/
def charListLt : List Char → List Char → Bool
  | _, [] => false
  | [], _ :: _ => true
  | a :: as, b :: bs => decide (a < b) || (a == b && charListLt as bs)

/-- `cache.Entry` (backend/cache/cache.go): a cached user entry. -/
structure Entry where
  username : String
  score : Int
deriving DecidableEq

/-- `UserCache.Set` (backend/cache/cache.go): insert-or-overwrite on the
backing map, embedded on the association list. -/
def setEntry : List (String × Entry) → String → Entry → List (String × Entry)
  | [], id, e => [(id, e)]
  | p :: rest, id, e =>
      if p.1 = id then (id, e) :: rest else p :: setEntry rest id e

/-- `cache.SearchResult` (backend/cache/cache.go). -/
structure SearchResult where
  userID : String
  username : String
  score : Int
deriving DecidableEq

/-- Embedding of `strings.HasPrefix` on character data. -/
def hasPrefixChars : List Char → List Char → Bool
  | _, [] => true
  | [], _ :: _ => false
  | a :: as, b :: bs => a == b && hasPrefixChars as bs

/-- Embedding of `strings.ToLower` (ASCII case folding via `Char.toLower`,
which is what the seeded usernames exercise). -/
def lowerStr (s : String) : String := ⟨s.data.map Char.toLower⟩

/-- The match predicate of `UserCache.SearchByPrefix`:
`strings.HasPrefix(strings.ToLower(e.Username), strings.ToLower(prefix))`. -/
def matchesPfx (pfx : String) (username : String) : Bool :=
  hasPrefixChars (lowerStr username).data (lowerStr pfx).data

/-- The comparator closure passed to `sort.Slice` in `SearchByPrefix`:
`results[i].Score > results[j].Score`. -/
def searchLess (a b : SearchResult) : Bool := decide (a.score > b.score)

/-- The ordering relation sort.Slice establishes for `searchLess`. -/
def searchLE (a b : SearchResult) : Prop := searchLess b a = false

instance : DecidableRel searchLE := fun a b => Bool.decEq (searchLess b a) false

/-- `UserCache.SearchByPrefix` (backend/cache/cache.go): case-insensitive
prefix scan over the map, sorted by score descending, truncated to `limit`.
The Go code truncates with `results[:limit]`, which panics when
`limit < 0`; the panic is `none`. -/
def searchByPfx (data : List (String × Entry)) (pfx : String) (limit : Int) :
    Option (List SearchResult) :=
  let results := (data.filter fun p => matchesPfx pfx p.2.username).map
      fun p => { userID := p.1, username := p.2.username, score := p.2.score : SearchResult }
  let sorted := List.insertionSort searchLE results
  if (sorted.length : Int) > limit then
    if 0 ≤ limit then some (sorted.take limit.toNat) else none
  else some sorted

/-- `engine.RankedEntry` (backend/engine/snapshot.go). -/
structure RankedEntry where
  userID : String
  username : String
  score : Int
  rank : Nat
deriving DecidableEq

/-- The comparator closure passed to `sort.Slice` in `Snapshot.Rebuild`:
score descending, ties broken by username ascending. -/
def less (a b : RankedEntry) : Bool :=
  if a.score == b.score then charListLt a.username.data b.username.data
  else decide (a.score > b.score)

/-- The ordering relation sort.Slice establishes for `less`: for `i < j` the
sorted slice satisfies `¬ less (out[j]) (out[i])`. -/
def sortLE (a b : RankedEntry) : Prop := less b a = false

instance : DecidableRel sortLE := fun a b => Bool.decEq (less b a) false

/-- The rank-assignment loop of `Snapshot.Rebuild`: `prevScore`/`prevRank`
are the score and `currentRank` of the previous element, `i` the 0-based
index of the current element.  `currentRank` becomes `i + 1` when the score
changes and is inherited otherwise. -/
def rankLoop : Int → Nat → Nat → List RankedEntry → List RankedEntry
  | _, _, _, [] => []
  | prevScore, prevRank, i, e :: rest =>
      let r := if e.score ≠ prevScore then i + 1 else prevRank
      { e with rank := r } :: rankLoop e.score r (i + 1) rest

/-- The full rank pass of `Snapshot.Rebuild` over the sorted slice: index 0
gets rank 1 (`currentRank` starts at 1 and `i > 0` fails). -/
def assignRanks : List RankedEntry → List RankedEntry
  | [] => []
  | e :: rest => { e with rank := 1 } :: rankLoop e.score 1 1 rest

/-- `engine.Snapshot` (backend/engine/snapshot.go): the published ordered
entries plus the userID → rank index (a Go map, embedded as an association
list whose keys are the pairwise-distinct userIDs of `entries`). -/
structure Snapshot where
  entries : List RankedEntry
  rankIndex : List (String × Nat)
deriving DecidableEq

/-- The initial `engine.Global` snapshot: empty. -/
def emptySnapshot : Snapshot := { entries := [], rankIndex := [] }

/-- The entry-materialization step of `Snapshot.Rebuild`: a `RankedEntry`
with the rank still at its zero value. -/
def toRanked (p : String × Entry) : RankedEntry :=
  { userID := p.1, username := p.2.username, score := p.2.score, rank := 0 }

/-- `Snapshot.Rebuild` (backend/engine/snapshot.go): materialize the cache
map (input: one materialization order), sort with `less`, assign ranks, and
build the rank index in the same pass. -/
def rebuild (data : List (String × Entry)) : Snapshot :=
  let ranked := assignRanks (List.insertionSort sortLE (data.map toRanked))
  { entries := ranked, rankIndex := ranked.map fun e => (e.userID, e.rank) }

/-- `Snapshot.GetRank` (backend/engine/snapshot.go): Go map indexing returns
the zero value 0 when the key is absent. -/
def getRank (s : Snapshot) (userID : String) : Nat :=
  (s.rankIndex.lookup userID).getD 0

/-- `Snapshot.GetLeaderboard` (backend/engine/snapshot.go).  `start ≥ total`
returns the empty page with the total; otherwise the Go code slices
`s.entries[start:end]`, which panics unless `0 ≤ start ≤ end` (the code
already guarantees `end ≤ total`); the panic is `none`. -/
def getLeaderboard (s : Snapshot) (page limit : Int) :
    Option (List RankedEntry × Int) :=
  let total : Int := s.entries.length
  let start := (page - 1) * limit
  if start ≥ total then some ([], total)
  else
    let stop := if start + limit > total then total else start + limit
    if 0 ≤ start ∧ start ≤ stop then
      some ((s.entries.drop start.toNat).take (stop - start).toNat, total)
    else none

/-- The page-contents projection of `getLeaderboard` used to state the
page-concatenation property (on the non-panicking domain the default is
never taken). -/
def pageEntries (s : Snapshot) (limit : Int) (page : Int) : List RankedEntry :=
  ((getLeaderboard s page limit).getD ([], 0)).1

/-- `services.Stats` (backend/services/leaderboard.go); the `float64`
average is embedded as `Rat`. -/
structure Stats where
  totalUpdates : Int
  rebuildsTriggered : Int
  avgUpdatesPerRebuild : Rat
deriving DecidableEq

/-- `MaxRebuildDelayMS` (backend/services/leaderboard.go). -/
def MaxRebuildDelayMS : Int := 500

/-- The mutable service-level state of backend/services/leaderboard.go:
the cache map, the published snapshot, `stats`, `pendingUpdates`,
`lastRebuild` and the debounce timer (modelled as armed-or-not).
`rebuildCount` instruments the number of `engine.Rebuild` invocations so
that "exactly one snapshot rebuild" is statable. -/
structure SState where
  cache : List (String × Entry)
  snap : Snapshot
  stats : Stats
  pendingUpdates : Int
  lastRebuild : Int
  timerArmed : Bool
  rebuildCount : Nat
deriving DecidableEq

/-- `executeRebuild` (backend/services/leaderboard.go): reset
`pendingUpdates`, stamp `lastRebuild`, bump `RebuildsTriggered`, recompute
the average (guarded by `RebuildsTriggered > 0`), rebuild the snapshot from
a full cache scan. -/
def executeRebuild (now : Int) (s : SState) : SState :=
  let rt := s.stats.rebuildsTriggered + 1
  { s with
    pendingUpdates := 0
    lastRebuild := now
    stats := { s.stats with
      rebuildsTriggered := rt
      avgUpdatesPerRebuild :=
        if rt > 0 then (s.stats.totalUpdates : Rat) / (rt : Rat)
        else s.stats.avgUpdatesPerRebuild }
    snap := rebuild s.cache
    rebuildCount := s.rebuildCount + 1 }

/-- `scheduleRebuild` (backend/services/leaderboard.go): count the update;
rebuild immediately when the staleness ceiling is exceeded, otherwise
(re)arm the debounce timer. -/
def scheduleRebuild (now : Int) (s : SState) : SState :=
  let s1 := { s with
    pendingUpdates := s.pendingUpdates + 1
    stats := { s.stats with totalUpdates := s.stats.totalUpdates + 1 } }
  if now - s1.lastRebuild ≥ MaxRebuildDelayMS ∧ s1.pendingUpdates > 0 then
    executeRebuild now s1
  else
    { s1 with timerArmed := true }

/-- `ForceRebuild` (backend/services/leaderboard.go): stop any pending
timer, reset `pendingUpdates`, stamp `lastRebuild`, rebuild the snapshot.
It does not touch `stats`. -/
def forceRebuild (now : Int) (s : SState) : SState :=
  { s with
    timerArmed := false
    pendingUpdates := 0
    lastRebuild := now
    snap := rebuild s.cache
    rebuildCount := s.rebuildCount + 1 }

/-- `services.ValidationError` and the propagated durable-store error,
embedded as one sum so that "returned unmodified" is statable. -/
inductive LbError (ε : Type) where
  | validation (msg : String)
  | store (e : ε)
deriving DecidableEq

/-- `models.UserResponse` as populated by the service layer. -/
structure UserResponse where
  userID : String
  username : String
  rating : Int
  rank : Nat
deriving DecidableEq

/-- `CreateUser` (backend/services/leaderboard.go): validate the score,
insert into the durable store (oracle `dbRes`, yielding the new ID), update
the cache, notify the scheduler.  The response carries no rank (zero
value). -/
def createUser {ε : Type} (dbRes : Except ε String) (username : String)
    (score : Int) (now : Int) (s : SState) :
    Except (LbError ε) UserResponse × SState :=
  if score < 100 ∨ score > 5000 then
    (.error (.validation "Score must be between 100 and 5000"), s)
  else
    match dbRes with
    | .error e => (.error (.store e), s)
    | .ok userID =>
        let s1 := { s with cache := setEntry s.cache userID { username := username, score := score } }
        let s2 := scheduleRebuild now s1
        (.ok { userID := userID, username := username, rating := score, rank := 0 }, s2)

/-- `UpdateScore` (backend/services/leaderboard.go): validate the score,
parse the hex ID (oracle `hexRes`), run `FindOneAndUpdate` (oracle `dbRes`,
yielding the user record), update the cache, notify the scheduler, and
answer with the rank from the then-current snapshot. -/
def updateScore {ε : Type} (hexRes : Except ε Unit) (dbRes : Except ε Entry)
    (userID : String) (newScore : Int) (now : Int) (s : SState) :
    Except (LbError ε) UserResponse × SState :=
  if newScore < 100 ∨ newScore > 5000 then
    (.error (.validation "Score must be between 100 and 5000"), s)
  else
    match hexRes with
    | .error e => (.error (.store e), s)
    | .ok _ =>
        match dbRes with
        | .error e => (.error (.store e), s)
        | .ok user =>
            let s1 := { s with cache := setEntry s.cache userID { username := user.username, score := newScore } }
            let s2 := scheduleRebuild now s1
            (.ok { userID := userID, username := user.username, rating := newScore,
                   rank := getRank s2.snap userID }, s2)

/-- The per-ID loop of `BulkUpdateRandom` (backend/services/leaderboard.go):
for the `k`-th selected ID draw `rand.Intn(4901) + 100` (the draw embedded
as `draws k % 4901`, matching `Intn`'s contract of a value in `[0, 4901)`),
attempt the durable write (outcome `oks k`), and on success write the cache
entry and count it.  Returns the cache, the `updated` count, and the list
of scores sent to the durable store. -/
def bulkLoop (draws : Nat → Nat) (oks : Nat → Bool) :
    Nat → List String → List (String × Entry) →
    List (String × Entry) × Int × List Int
  | _, [], cache => (cache, 0, [])
  | k, id :: rest, cache =>
      let newScore : Int := ((draws k % 4901 : Nat) : Int) + 100
      if oks k then
        let entry := (cache.lookup id).getD { username := "", score := 0 }
        let out := bulkLoop draws oks (k + 1) rest
          (setEntry cache id { username := entry.username, score := newScore })
        (out.1, out.2.1 + 1, newScore :: out.2.2)
      else
        let out := bulkLoop draws oks (k + 1) rest cache
        (out.1, out.2.1, newScore :: out.2.2)

/-- `BulkUpdateRandom` (backend/services/leaderboard.go): clamp `count` to
the population, walk the (shuffled — the caller-supplied order of `ids`)
selection writing random scores, then `ForceRebuild` once.  Returns the new
state, the `updated` count and the durable-store write scores (timing
metrics are wall-clock and not modelled). -/
def bulkUpdateRandom (draws : Nat → Nat) (oks : Nat → Bool) (count : Int)
    (ids : List String) (now : Int) (s : SState) :
    SState × Int × List Int :=
  let n := if count > (ids.length : Int) then (ids.length : Int) else count
  let out := bulkLoop draws oks 0 (ids.take n.toNat) s.cache
  (forceRebuild now { s with cache := out.1 }, out.2.1, out.2.2)

/-! ## Order lemmas for the embedded string comparison -/

lemma charListLt_irrefl (l : List Char) : charListLt l l = false := by
  induction l with
  | nil => rfl
  | cons a t ih => simp [charListLt, ih]

lemma charListLt_trans : ∀ {l1 l2 l3 : List Char}, charListLt l1 l2 = true →
    charListLt l2 l3 = true → charListLt l1 l3 = true := by
  intro l1
  induction l1 with
  | nil =>
    intro l2 l3 h1 h2
    cases l2 with
    | nil => simp [charListLt] at h1
    | cons b bs =>
      cases l3 with
      | nil => simp [charListLt] at h2
      | cons c cs => simp [charListLt]
  | cons a as ih =>
    intro l2 l3 h1 h2
    cases l2 with
    | nil => simp [charListLt] at h1
    | cons b bs =>
      cases l3 with
      | nil => simp [charListLt] at h2
      | cons c cs =>
        simp [charListLt] at h1 h2 ⊢
        rcases h1 with h1 | ⟨hab, h1⟩ <;> rcases h2 with h2 | ⟨hbc, h2⟩
        · exact Or.inl (lt_trans h1 h2)
        · exact Or.inl (hbc ▸ h1)
        · exact Or.inl (hab.symm ▸ h2)
        · exact Or.inr ⟨hab.trans hbc, ih h1 h2⟩

lemma charListLt_eq_of_not : ∀ {l1 l2 : List Char}, charListLt l1 l2 = false →
    charListLt l2 l1 = false → l1 = l2 := by
  intro l1
  induction l1 with
  | nil =>
    intro l2 h1 _
    cases l2 with
    | nil => rfl
    | cons b bs => simp [charListLt] at h1
  | cons a as ih =>
    intro l2 h1 h2
    cases l2 with
    | nil => simp [charListLt] at h2
    | cons b bs =>
      simp [charListLt] at h1 h2
      have hab : a = b := le_antisymm h2.1 h1.1
      subst hab
      have e1 : charListLt as bs = false := h1.2 rfl
      have e2 : charListLt bs as = false := h2.2 rfl
      rw [ih e1 e2]

lemma charListLt_asymm {l1 l2 : List Char} (h : charListLt l1 l2 = true) :
    charListLt l2 l1 = false := by
  cases hb : charListLt l2 l1 with
  | false => rfl
  | true =>
    have := charListLt_trans h hb
    rw [charListLt_irrefl] at this
    exact this.symm ▸ rfl

lemma charListLt_false_trans {a b c : List Char} (h1 : charListLt b a = false)
    (h2 : charListLt c b = false) : charListLt c a = false := by
  cases h : charListLt c a with
  | false => rfl
  | true =>
    exfalso
    cases hab : charListLt a b with
    | true => simp [charListLt_trans h hab] at h2
    | false =>
      have hEq := charListLt_eq_of_not hab h1
      rw [hEq] at h
      simp [h] at h2

lemma charListLt_total (a b : List Char) :
    charListLt a b = false ∨ charListLt b a = false := by
  cases h : charListLt a b with
  | false => exact Or.inl rfl
  | true => exact Or.inr (charListLt_asymm h)

/-! ## The ordering relations established by the two sort.Slice calls -/


lemma sortLE_iff (a b : RankedEntry) :
    sortLE a b ↔ b.score < a.score ∨
      (b.score = a.score ∧ charListLt b.username.data a.username.data = false) := by
  by_cases h : b.score = a.score
  · have hif : less b a = charListLt b.username.data a.username.data := by
      unfold less
      rw [if_pos (by simpa using h)]
    unfold sortLE
    rw [hif]
    constructor
    · intro hc
      exact Or.inr ⟨h, hc⟩
    · intro hor
      rcases hor with h1 | ⟨_, h2⟩
      · exact absurd h1 (by omega)
      · exact h2
  · have hif : less b a = decide (b.score > a.score) := by
      unfold less
      rw [if_neg (by simpa using h)]
    unfold sortLE
    rw [hif]
    constructor
    · intro hc
      have hgt : ¬ (b.score > a.score) := of_decide_eq_false hc
      exact Or.inl (by omega)
    · intro hor
      have hlt : b.score < a.score := by
        rcases hor with h1 | ⟨h1, _⟩
        · exact h1
        · exact absurd h1 h
      exact decide_eq_false (by omega)

instance : IsTrans RankedEntry sortLE := by
  constructor
  intro a b c hab hbc
  rw [sortLE_iff] at hab hbc ⊢
  rcases hab with h | ⟨he, hl⟩ <;> rcases hbc with h2 | ⟨he2, hl2⟩
  · exact Or.inl (by omega)
  · exact Or.inl (by omega)
  · exact Or.inl (by omega)
  · exact Or.inr ⟨by omega, charListLt_false_trans hl hl2⟩

instance : IsTotal RankedEntry sortLE := by
  constructor
  intro a b
  rw [sortLE_iff, sortLE_iff]
  rcases lt_trichotomy a.score b.score with h | h | h
  · exact Or.inr (Or.inl h)
  · rcases charListLt_total a.username.data b.username.data with hc | hc
    · exact Or.inr (Or.inr ⟨h, hc⟩)
    · exact Or.inl (Or.inr ⟨h.symm, hc⟩)
  · exact Or.inl (Or.inl h)

lemma searchLE_iff (a b : SearchResult) : searchLE a b ↔ b.score ≤ a.score := by
  unfold searchLE searchLess
  constructor
  · intro hf
    have hgt : ¬ (b.score > a.score) := of_decide_eq_false hf
    omega
  · intro hle
    exact decide_eq_false (by omega)

instance : IsTrans SearchResult searchLE := by
  constructor
  intro a b c hab hbc
  rw [searchLE_iff] at hab hbc ⊢
  omega

instance : IsTotal SearchResult searchLE := by
  constructor
  intro a b
  rw [searchLE_iff, searchLE_iff]
  omega

/-! ## The rank-assignment pass -/

lemma rank_update_eq (x : RankedEntry) {r1 r2 : Nat} (h : r1 = r2) :
    ({ x with rank := r1 } : RankedEntry) = { x with rank := r2 } := by rw [h]

lemma rankLoop_cons_ne {e : RankedEntry} {t : List RankedEntry} {pScore : Int}
    {pRank i : Nat} (h : e.score ≠ pScore) :
    rankLoop pScore pRank i (e :: t) =
      { e with rank := i + 1 } :: rankLoop e.score (i + 1) (i + 1) t := by
  simp [rankLoop, h]

lemma rankLoop_cons_eq {e : RankedEntry} {t : List RankedEntry} {pScore : Int}
    {pRank i : Nat} (h : e.score = pScore) :
    rankLoop pScore pRank i (e :: t) =
      { e with rank := pRank } :: rankLoop e.score pRank (i + 1) t := by
  simp [rankLoop, h]

lemma countP_gt_nil {s : Int} {t : List RankedEntry} (hle : ∀ y ∈ t, y.score ≤ s) :
    t.countP (fun y => decide (s < y.score)) = 0 := by
  rw [List.countP_eq_zero]
  intro y hy
  have := hle y hy
  simp only [decide_eq_true_eq]
  omega

lemma rankLoop_eq_map :
    ∀ (rest : List RankedEntry) (pScore : Int) (pRank i : Nat),
      rest.Pairwise (fun x y => y.score ≤ x.score) →
      (∀ x ∈ rest, x.score ≤ pScore) →
      rankLoop pScore pRank i rest =
        rest.map fun x =>
          { x with rank := if x.score = pScore then pRank
                           else i + 1 + rest.countP fun y => decide (x.score < y.score) } := by
  intro rest
  induction rest with
  | nil => intro pScore pRank i _ _; rfl
  | cons e t ih =>
    intro pScore pRank i hpw hle
    have hte : ∀ x ∈ t, x.score ≤ e.score := (List.pairwise_cons.mp hpw).1
    have hpwt : t.Pairwise (fun x y => y.score ≤ x.score) := (List.pairwise_cons.mp hpw).2
    have hheadle : e.score ≤ pScore := hle e (List.mem_cons_self e t)
    by_cases hc : e.score = pScore
    · rw [rankLoop_cons_eq hc, ih e.score pRank (i + 1) hpwt hte, List.map_cons]
      congr 1
      · rw [if_pos hc]
      · apply List.map_congr_left
        intro x hx
        by_cases hxp : x.score = pScore
        · rw [if_pos (show x.score = e.score by omega), if_pos hxp]
        · have hxe : x.score ≠ e.score := by omega
          have hxlt : x.score < e.score := lt_of_le_of_ne (hte x hx) hxe
          rw [if_neg hxe, if_neg hxp]
          apply rank_update_eq
          rw [List.countP_cons]
          simp [hxlt]
          omega
    · rw [rankLoop_cons_ne hc, ih e.score (i + 1) (i + 1) hpwt hte, List.map_cons]
      have hplt : e.score < pScore := lt_of_le_of_ne hheadle hc
      congr 1
      · rw [if_neg hc]
        apply rank_update_eq
        rw [List.countP_cons, countP_gt_nil hte]
        simp
      · apply List.map_congr_left
        intro x hx
        have hxle : x.score ≤ e.score := hte x hx
        have hxp : x.score ≠ pScore := by omega
        by_cases hxe : x.score = e.score
        · rw [if_pos hxe, if_neg hxp]
          apply rank_update_eq
          have h0 : t.countP (fun y => decide (x.score < y.score)) = 0 :=
            countP_gt_nil (fun y hy => by have := hte y hy; omega)
          rw [List.countP_cons, h0]
          simp only [hxe]
          simp
        · have hxlt : x.score < e.score := lt_of_le_of_ne hxle hxe
          rw [if_neg hxe, if_neg hxp]
          apply rank_update_eq
          rw [List.countP_cons]
          simp [hxlt]
          omega

lemma assignRanks_eq_map (l : List RankedEntry)
    (hpw : l.Pairwise fun x y => y.score ≤ x.score) :
    assignRanks l = l.map fun x =>
      { x with rank := 1 + l.countP fun y => decide (x.score < y.score) } := by
  cases l with
  | nil => rfl
  | cons e t =>
    have hte : ∀ x ∈ t, x.score ≤ e.score := (List.pairwise_cons.mp hpw).1
    have hpwt : t.Pairwise (fun x y => y.score ≤ x.score) := (List.pairwise_cons.mp hpw).2
    rw [assignRanks, rankLoop_eq_map t e.score 1 1 hpwt hte, List.map_cons]
    congr 1
    · apply rank_update_eq
      rw [List.countP_cons, countP_gt_nil hte]
      simp
    · apply List.map_congr_left
      intro x hx
      have hxle : x.score ≤ e.score := hte x hx
      by_cases hxe : x.score = e.score
      · rw [if_pos hxe]
        apply rank_update_eq
        have h0 : t.countP (fun y => decide (x.score < y.score)) = 0 :=
          countP_gt_nil (fun y hy => by have := hte y hy; omega)
        rw [List.countP_cons, h0]
        simp only [hxe]
        simp
      · have hxlt : x.score < e.score := lt_of_le_of_ne hxle hxe
        rw [if_neg hxe]
        apply rank_update_eq
        rw [List.countP_cons]
        simp [hxlt]
        omega

/-! ## Facts about `rebuild` -/

/-- The ranking-irrelevant projection of a `RankedEntry`. -/
def stripRank (e : RankedEntry) : String × String × Int := (e.userID, e.username, e.score)

lemma sorted_pairwise_score (l : List RankedEntry) :
    (List.insertionSort sortLE l).Pairwise fun x y => y.score ≤ x.score := by
  refine (List.sorted_insertionSort sortLE l).imp ?_
  intro a b hab
  rw [sortLE_iff] at hab
  rcases hab with h | ⟨h, _⟩ <;> omega

lemma assignRanks_map_strip (l : List RankedEntry)
    (hpw : l.Pairwise fun x y => y.score ≤ x.score) :
    (assignRanks l).map stripRank = l.map stripRank := by
  rw [assignRanks_eq_map l hpw, List.map_map]
  apply List.map_congr_left
  intro x _
  rfl

lemma assignRanks_rank_mem (l : List RankedEntry)
    (hpw : l.Pairwise fun x y => y.score ≤ x.score) :
    ∀ e ∈ assignRanks l,
      e.rank = 1 + (assignRanks l).countP fun y => decide (e.score < y.score) := by
  rw [assignRanks_eq_map l hpw]
  intro e he
  obtain ⟨x, hx, rfl⟩ := List.mem_map.mp he
  rw [List.countP_map]
  rfl

lemma assignRanks_pairwise (l : List RankedEntry)
    (hpw : l.Pairwise fun x y => y.score ≤ x.score)
    (hs : l.Pairwise sortLE) : (assignRanks l).Pairwise sortLE := by
  rw [assignRanks_eq_map l hpw]
  exact hs.map _ fun a b hab => hab

/-- Two equally-sorted permutations of each other are equal, provided the
order relation is antisymmetric on the elements actually present. -/
lemma perm_sorted_unique {α : Type} {r : α → α → Prop} :
    ∀ {l1 l2 : List α}, List.Perm l1 l2 → l1.Pairwise r → l2.Pairwise r →
      (∀ a ∈ l1, ∀ b ∈ l1, r a b → r b a → a = b) → l1 = l2 := by
  intro l1
  induction l1 with
  | nil =>
    intro l2 hp _ _ _
    exact hp.nil_eq
  | cons a t1 ih =>
    intro l2 hp hs1 hs2 hanti
    cases l2 with
    | nil => simp at hp
    | cons b t2 =>
      have hab : a = b := by
        by_contra hne
        have ha2 : a ∈ b :: t2 := hp.mem_iff.mp (List.mem_cons_self a t1)
        have hb1 : b ∈ a :: t1 := hp.mem_iff.mpr (List.mem_cons_self b t2)
        have ha2' : a ∈ t2 := by
          rcases List.mem_cons.mp ha2 with h | h
          · exact absurd h hne
          · exact h
        have hb1' : b ∈ t1 := by
          rcases List.mem_cons.mp hb1 with h | h
          · exact absurd h.symm hne
          · exact h
        have hr1 : r a b := (List.pairwise_cons.mp hs1).1 b hb1'
        have hr2 : r b a := (List.pairwise_cons.mp hs2).1 a ha2'
        exact hne (hanti a (List.mem_cons_self a t1) b hb1 hr1 hr2)
      subst hab
      have hpt := hp.cons_inv
      have htails := ih hpt (List.pairwise_cons.mp hs1).2 (List.pairwise_cons.mp hs2).2
        fun x hx y hy hxy hyx =>
          hanti x (List.mem_cons_of_mem a hx) y (List.mem_cons_of_mem a hy) hxy hyx
      rw [htails]

/-! ## Lookup helpers for the embedded Go maps -/

lemma lookup_eq_none_of_not_mem {β : Type} :
    ∀ (l : List (String × β)) {id : String}, id ∉ l.map Prod.fst →
      l.lookup id = none := by
  intro l
  induction l with
  | nil => intro id _; rfl
  | cons p t ih =>
    intro id h
    obtain ⟨k, v⟩ := p
    simp only [List.map_cons, List.mem_cons] at h
    push_neg at h
    have hbeq : (id == k) = false := beq_eq_false_iff_ne.mpr h.1
    simp [List.lookup, hbeq, ih h.2]

lemma lookup_mem_of_mem {β : Type} :
    ∀ (l : List (String × β)) {id : String}, id ∈ l.map Prod.fst →
      ∃ v, l.lookup id = some v := by
  intro l
  induction l with
  | nil => intro id h; simp at h
  | cons p t ih =>
    intro id h
    obtain ⟨k, v⟩ := p
    by_cases hk : id = k
    · exact ⟨v, by simp [List.lookup, hk]⟩
    · have hbeq : (id == k) = false := beq_eq_false_iff_ne.mpr hk
      simp only [List.map_cons, List.mem_cons] at h
      rcases h with h | h
      · exact absurd h hk
      · obtain ⟨w, hw⟩ := ih h
        exact ⟨w, by simp [List.lookup, hbeq, hw]⟩

/-! ## The pagination bridge -/

lemma getLeaderboard_eq_of_pos (s : Snapshot) (page limit : Int)
    (hp : 1 ≤ page) (hl : 1 ≤ limit) :
    getLeaderboard s page limit =
      some ((s.entries.drop ((page - 1) * limit).toNat).take limit.toNat,
        (s.entries.length : Int)) := by
  have hstart : 0 ≤ (page - 1) * limit := mul_nonneg (by omega) (by omega)
  simp only [getLeaderboard]
  by_cases h1 : (page - 1) * limit ≥ (s.entries.length : Int)
  · rw [if_pos h1]
    have hdrop : s.entries.drop ((page - 1) * limit).toNat = [] :=
      List.drop_eq_nil_of_le (by omega)
    rw [hdrop]
    simp
  · rw [if_neg h1]
    by_cases hov : (page - 1) * limit + limit > (s.entries.length : Int)
    · rw [if_pos hov, if_pos ⟨hstart, by omega⟩]
      congr 2
      exact List.take_eq_take.mpr (by rw [List.length_drop]; omega)
    · rw [if_neg hov, if_pos ⟨hstart, by omega⟩]
      congr 2
      exact List.take_eq_take.mpr (by rw [List.length_drop]; omega)

lemma pageEntries_eq (s : Snapshot) (limit page : Int) (hp : 1 ≤ page)
    (hl : 1 ≤ limit) :
    pageEntries s limit page =
      (s.entries.drop ((page - 1) * limit).toNat).take limit.toNat := by
  unfold pageEntries
  rw [getLeaderboard_eq_of_pos s page limit hp hl]
  rfl

lemma pages_concat (s : Snapshot) (limit : Int) (hl : 1 ≤ limit) :
    ∀ n : Nat, ((List.range n).flatMap fun k => pageEntries s limit ((k : Int) + 1)) =
      s.entries.take (n * limit.toNat) := by
  intro n
  induction n with
  | zero => simp
  | succ n ih =>
    rw [List.range_succ, List.flatMap_append, ih, List.flatMap_cons, List.flatMap_nil,
      List.append_nil, pageEntries_eq s limit ((n : Int) + 1) (by omega) hl]
    have h2 : ((limit.toNat : Int)) = limit := Int.toNat_of_nonneg (by omega)
    have h1 : (((n : Int) + 1 - 1) * limit).toNat = n * limit.toNat := by
      have hcalc : ((n : Int) + 1 - 1) * limit = ((n * limit.toNat : Nat) : Int) := by
        push_cast
        rw [h2]
        ring
      rw [hcalc, Int.toNat_natCast]
    rw [h1, Nat.succ_mul, List.take_add]

/-! ## Cache-write and bulk-loop lemmas -/

lemma mem_setEntry :
    ∀ (c : List (String × Entry)) (id : String) (e : Entry),
      ∀ q ∈ setEntry c id e, q ∈ c ∨ q = (id, e) := by
  intro c id e
  induction c with
  | nil =>
    intro q hq
    simp [setEntry] at hq
    exact Or.inr hq
  | cons p t ih =>
    intro q hq
    rw [setEntry] at hq
    by_cases h : p.1 = id
    · rw [if_pos h] at hq
      rcases List.mem_cons.mp hq with h1 | h1
      · exact Or.inr h1
      · exact Or.inl (List.mem_cons_of_mem p h1)
    · rw [if_neg h] at hq
      rcases List.mem_cons.mp hq with h1 | h1
      · exact Or.inl (h1 ▸ List.mem_cons_self p t)
      · rcases ih q h1 with h2 | h2
        · exact Or.inl (List.mem_cons_of_mem p h2)
        · exact Or.inr h2

lemma bulkLoop_range (draws : Nat → Nat) (oks : Nat → Bool) :
    ∀ (ids : List String) (k : Nat) (cache : List (String × Entry)),
      (∀ p ∈ cache, 100 ≤ p.2.score ∧ p.2.score ≤ 5000) →
      (∀ w ∈ (bulkLoop draws oks k ids cache).2.2, 100 ≤ w ∧ w ≤ 5000) ∧
      (∀ p ∈ (bulkLoop draws oks k ids cache).1,
        100 ≤ p.2.score ∧ p.2.score ≤ 5000) := by
  intro ids
  induction ids with
  | nil =>
    intro k cache hc
    constructor
    · intro w hw
      simp [bulkLoop] at hw
    · intro p hp
      exact hc p (by simpa [bulkLoop] using hp)
  | cons id rest ih =>
    intro k cache hc
    cases hok : oks k with
    | true =>
      have hc' : ∀ p ∈ setEntry cache id
          { username := ((cache.lookup id).getD { username := "", score := 0 }).username,
            score := ((draws k % 4901 : Nat) : Int) + 100 },
          100 ≤ p.2.score ∧ p.2.score ≤ 5000 := by
        intro p hp
        rcases mem_setEntry cache id _ p hp with h | h
        · exact hc p h
        · have hs : 100 ≤ ((draws k % 4901 : Nat) : Int) + 100 ∧
              ((draws k % 4901 : Nat) : Int) + 100 ≤ 5000 := by omega
          rw [h]
          exact hs
      have hrec := ih (k + 1) _ hc'
      constructor
      · intro w hw
        simp only [bulkLoop, hok, if_true] at hw
        rcases List.mem_cons.mp hw with h | h
        · subst h
          constructor <;> omega
        · exact hrec.1 w h
      · intro p hp
        simp only [bulkLoop, hok, if_true] at hp
        exact hrec.2 p hp
    | false =>
      have hrec := ih (k + 1) cache hc
      constructor
      · intro w hw
        simp only [bulkLoop, hok] at hw
        rcases List.mem_cons.mp hw with h | h
        · subst h
          constructor <;> omega
        · exact hrec.1 w h
      · intro p hp
        simp only [bulkLoop, hok] at hp
        exact hrec.2 p hp

/-! ## Concrete fixtures -/

/-- The spec's concrete scenario cache: A with score 5000, B with score
5000, C with score 4998. -/
def exampleABC : List (String × Entry) :=
  [("A", { username := "A", score := 5000 }),
   ("B", { username := "B", score := 5000 }),
   ("C", { username := "C", score := 4998 })]

/-- The same cache materialized in the reverse iteration order. -/
def exampleCBA : List (String × Entry) :=
  [("C", { username := "C", score := 4998 }),
   ("B", { username := "B", score := 5000 }),
   ("A", { username := "A", score := 5000 })]

/-- Two distinct IDs sharing both username and score, in two iteration
orders of the same map. -/
def tiedL1 : List (String × Entry) :=
  [("a", { username := "x", score := 100 }), ("b", { username := "x", score := 100 })]

/-- See `tiedL1`. -/
def tiedL2 : List (String × Entry) :=
  [("b", { username := "x", score := 100 }), ("a", { username := "x", score := 100 })]

/-- A small concrete service state. -/
def st0 : SState :=
  { cache := [("u1", { username := "a", score := 500 }), ("u2", { username := "b", score := 600 })]
    snap := emptySnapshot
    stats := { totalUpdates := 0, rebuildsTriggered := 0, avgUpdatesPerRebuild := 0 }
    pendingUpdates := 0
    lastRebuild := 0
    timerArmed := false
    rebuildCount := 0 }

/-- A small concrete cache for the search claims. -/
def searchData : List (String × Entry) :=
  [("u1", { username := "Ab", score := 500 }), ("u2", { username := "zz", score := 900 })]

/-! ## Claim theorems -/

/-- C2: for every input mapping, `Rebuild` produces entries that are a
permutation of the input, sorted by score descending with ties broken by
name ascending, and whose ranks follow competition ranking — every entry's
rank is one plus the number of entries with a strictly greater score (which
pins down "first gets 1; each later entry gets its 1-based position unless
it ties the previous score, in which case it inherits the rank").  On the
cache A:5000, B:5000, C:4998 the ranks in order are 1, 1, 3. -/
theorem c2_rebuild_sorts_and_ranks (data : List (String × Entry)) :
    ((rebuild data).entries.map stripRank).Perm
      (data.map fun p => (p.1, p.2.username, p.2.score)) ∧
    (rebuild data).entries.Pairwise
      (fun a b => b.score < a.score ∨
        (b.score = a.score ∧ charListLt b.username.data a.username.data = false)) ∧
    (∀ e ∈ (rebuild data).entries,
      e.rank = 1 + (rebuild data).entries.countP fun y => decide (e.score < y.score)) ∧
    (rebuild exampleABC).entries.map (fun e => (e.username, e.rank))
      = [("A", 1), ("B", 1), ("C", 3)] := by
  have hpw := sorted_pairwise_score (data.map toRanked)
  have hsorted := List.sorted_insertionSort sortLE (data.map toRanked)
  refine ⟨?_, ?_, ?_, by decide⟩
  · have h1 : (rebuild data).entries.map stripRank
        = (List.insertionSort sortLE (data.map toRanked)).map stripRank := by
      show (assignRanks _).map stripRank = _
      exact assignRanks_map_strip _ hpw
    rw [h1]
    have h2 := (List.perm_insertionSort sortLE (data.map toRanked)).map stripRank
    refine h2.trans ?_
    rw [List.map_map]
    exact List.Perm.refl _
  · have hP : (rebuild data).entries.Pairwise sortLE := assignRanks_pairwise _ hpw hsorted
    exact hP.imp fun hab => (sortLE_iff _ _).mp hab
  · intro e he
    exact assignRanks_rank_mem _ hpw e he

/-- C2 witness: the A entry of the concrete scenario is in the snapshot
and carries the competition rank given by the theorem. -/
theorem c2_witness :
    ({ userID := "A", username := "A", score := 5000, rank := 1 } : RankedEntry)
        ∈ (rebuild exampleABC).entries ∧
    ({ userID := "A", username := "A", score := 5000, rank := 1 } : RankedEntry).rank
      = 1 + (rebuild exampleABC).entries.countP
          fun y => decide (({ userID := "A", username := "A", score := 5000, rank := 1 }
            : RankedEntry).score < y.score) :=
  ⟨by decide, (c2_rebuild_sorts_and_ranks exampleABC).2.2.1 _ (by decide)⟩

/-- C3 counterexample: two materialization orders of the same map (two IDs
sharing score and username) are permutations of each other, yet `Rebuild`
produces different `orderedEntries` — so `Rebuild` is not a function of the
mapping alone, and "bit-identical orderedEntries and rankIndex" fails. -/
theorem c3_counterexample :
    List.Perm tiedL1 tiedL2 ∧ rebuild tiedL1 ≠ rebuild tiedL2 :=
  ⟨by decide, by decide⟩

/-- C3 (amended): `Rebuild` is deterministic in the input mapping — any two
materialization orders of the same mapping yield identical snapshots —
provided no two distinct entries share both score and username (full ties
are ordered arbitrarily by the unstable sort over the arbitrary map
iteration order). -/
theorem c3_rebuild_deterministic (l1 l2 : List (String × Entry))
    (hperm : List.Perm l1 l2)
    (hkey : ∀ p ∈ l1, ∀ q ∈ l1, p.2.score = q.2.score →
      p.2.username = q.2.username → p = q) :
    rebuild l1 = rebuild l2 := by
  have hmk : List.Perm (l1.map toRanked) (l2.map toRanked) := hperm.map toRanked
  have hp : List.Perm (List.insertionSort sortLE (l1.map toRanked))
      (List.insertionSort sortLE (l2.map toRanked)) :=
    (List.perm_insertionSort sortLE (l1.map toRanked)).trans
      (hmk.trans (List.perm_insertionSort sortLE (l2.map toRanked)).symm)
  have hanti : ∀ a ∈ List.insertionSort sortLE (l1.map toRanked),
      ∀ b ∈ List.insertionSort sortLE (l1.map toRanked),
      sortLE a b → sortLE b a → a = b := by
    intro a ha b hb hab hba
    have ha' : a ∈ l1.map toRanked := (List.perm_insertionSort sortLE _).mem_iff.mp ha
    have hb' : b ∈ l1.map toRanked := (List.perm_insertionSort sortLE _).mem_iff.mp hb
    obtain ⟨p, hpmem, rfl⟩ := List.mem_map.mp ha'
    obtain ⟨q, hqmem, rfl⟩ := List.mem_map.mp hb'
    rw [sortLE_iff] at hab hba
    have hsc : (toRanked p).score = (toRanked q).score := by
      rcases hab with h | ⟨h, _⟩ <;> rcases hba with h2 | ⟨h2, _⟩ <;> omega
    have hun : (toRanked q).username.data = (toRanked p).username.data := by
      rcases hab with h | ⟨he, hl⟩
      · exfalso; omega
      · rcases hba with h2 | ⟨he2, hl2⟩
        · exfalso; omega
        · exact charListLt_eq_of_not hl hl2
    have husername : (toRanked q).username = (toRanked p).username := String.ext hun
    have hpq : p = q := hkey p hpmem q hqmem hsc husername.symm
    rw [hpq]
  have heq : List.insertionSort sortLE (l1.map toRanked)
      = List.insertionSort sortLE (l2.map toRanked) :=
    perm_sorted_unique hp (List.sorted_insertionSort sortLE _)
      (List.sorted_insertionSort sortLE _) hanti
  unfold rebuild
  rw [heq]

/-- C3 witness: on the concrete A/B/C cache (pairwise distinct
score-username combinations) two materialization orders rebuild to the
same snapshot. -/
theorem c3_witness :
    List.Perm exampleABC exampleCBA ∧
    (∀ p ∈ exampleABC, ∀ q ∈ exampleABC, p.2.score = q.2.score →
      p.2.username = q.2.username → p = q) ∧
    rebuild exampleABC = rebuild exampleCBA :=
  ⟨by decide, by decide, c3_rebuild_deterministic _ _ (by decide) (by decide)⟩

/-- C7: `GetRank` returns 0 for IDs absent from the snapshot — on the
initial empty snapshot and after a rebuild from any mapping — and returns
the rank stored in the rank index for present IDs. -/
theorem c7_getRank_zero_or_index (data : List (String × Entry)) (id : String) :
    getRank emptySnapshot id = 0 ∧
    (id ∉ data.map Prod.fst → getRank (rebuild data) id = 0) ∧
    (id ∈ data.map Prod.fst →
      ∃ r, (rebuild data).rankIndex.lookup id = some r ∧ getRank (rebuild data) id = r) := by
  have hpw := sorted_pairwise_score (data.map toRanked)
  have hkeys : ((rebuild data).rankIndex.map Prod.fst).Perm (data.map Prod.fst) := by
    have h0 : (rebuild data).rankIndex.map Prod.fst
        = (rebuild data).entries.map (fun e => e.userID) := by
      show ((assignRanks _).map fun e => (e.userID, e.rank)).map Prod.fst = _
      rw [List.map_map]
      rfl
    have hstrip := assignRanks_map_strip (List.insertionSort sortLE (data.map toRanked)) hpw
    have h1 : (rebuild data).entries.map (fun e => e.userID)
        = (List.insertionSort sortLE (data.map toRanked)).map fun e => e.userID := by
      calc (rebuild data).entries.map (fun e => e.userID)
          = ((rebuild data).entries.map stripRank).map Prod.fst := by
            rw [List.map_map]
            rfl
        _ = ((List.insertionSort sortLE (data.map toRanked)).map stripRank).map Prod.fst := by
            show ((assignRanks _).map stripRank).map Prod.fst = _
            rw [hstrip]
        _ = (List.insertionSort sortLE (data.map toRanked)).map fun e => e.userID := by
            rw [List.map_map]
            rfl
    rw [h0, h1]
    have h2 := (List.perm_insertionSort sortLE (data.map toRanked)).map fun e => e.userID
    refine h2.trans ?_
    rw [List.map_map]
    exact List.Perm.refl _
  refine ⟨rfl, ?_, ?_⟩
  · intro hid
    have hnm : id ∉ (rebuild data).rankIndex.map Prod.fst :=
      fun hmem => hid (hkeys.mem_iff.mp hmem)
    unfold getRank
    rw [lookup_eq_none_of_not_mem _ hnm]
    rfl
  · intro hid
    have hm : id ∈ (rebuild data).rankIndex.map Prod.fst := hkeys.mem_iff.mpr hid
    obtain ⟨v, hv⟩ := lookup_mem_of_mem _ hm
    refine ⟨v, hv, ?_⟩
    unfold getRank
    rw [hv]
    rfl

/-- C7 witness: an unknown ID gets rank 0 after the concrete rebuild. -/
theorem c7_witness :
    ("zzz" ∉ exampleABC.map Prod.fst) ∧ getRank (rebuild exampleABC) "zzz" = 0 :=
  ⟨by decide, (c7_getRank_zero_or_index exampleABC "zzz").2.1 (by decide)⟩

/-- C1 counterexample: a bulk update over two IDs followed by the single
`ForceRebuild` performs exactly one snapshot rebuild, yet
`Stats.RebuildsTriggered` is not incremented — `ForceRebuild` never touches
`stats`. -/
theorem c1_counterexample :
    (bulkUpdateRandom (fun _ => 0) (fun _ => true) 2 ["u1", "u2"] 9 st0).1.rebuildCount
        = st0.rebuildCount + 1 ∧
    (bulkUpdateRandom (fun _ => 0) (fun _ => true) 2 ["u1", "u2"] 9 st0).1.stats.rebuildsTriggered
        ≠ st0.stats.rebuildsTriggered + 1 := by
  constructor
  · rfl
  · decide

/-- C1 (amended): a bulk update followed by one `ForceRebuild` performs
exactly one snapshot rebuild but leaves `Stats` (including
`RebuildsTriggered`) unchanged, resetting `pendingUpdates` to 0 and
`lastRebuild` to now; every debounced rebuild (`executeRebuild`, from timer
fire or staleness ceiling) increments `Stats.RebuildsTriggered`, recomputes
`AvgUpdatesPerRebuild = TotalUpdates / RebuildsTriggered`, and resets
`pendingUpdates` to 0 and `lastRebuild` to now; a forced rebuild performs
the same resets and exactly one snapshot rebuild without updating
`Stats`. -/
theorem c1_scheduler_rebuild_effects (draws : Nat → Nat) (oks : Nat → Bool)
    (count : Int) (ids : List String) (now now2 : Int) (s : SState)
    (hrt : 0 ≤ s.stats.rebuildsTriggered) :
    ((bulkUpdateRandom draws oks count ids now s).1.rebuildCount = s.rebuildCount + 1 ∧
     (bulkUpdateRandom draws oks count ids now s).1.stats = s.stats ∧
     (bulkUpdateRandom draws oks count ids now s).1.pendingUpdates = 0 ∧
     (bulkUpdateRandom draws oks count ids now s).1.lastRebuild = now) ∧
    ((executeRebuild now2 s).stats.rebuildsTriggered = s.stats.rebuildsTriggered + 1 ∧
     (executeRebuild now2 s).stats.totalUpdates = s.stats.totalUpdates ∧
     (executeRebuild now2 s).stats.avgUpdatesPerRebuild =
       (s.stats.totalUpdates : Rat) / ((s.stats.rebuildsTriggered + 1 : Int) : Rat) ∧
     (executeRebuild now2 s).pendingUpdates = 0 ∧
     (executeRebuild now2 s).lastRebuild = now2 ∧
     (executeRebuild now2 s).rebuildCount = s.rebuildCount + 1) ∧
    ((forceRebuild now2 s).stats = s.stats ∧
     (forceRebuild now2 s).pendingUpdates = 0 ∧
     (forceRebuild now2 s).lastRebuild = now2 ∧
     (forceRebuild now2 s).rebuildCount = s.rebuildCount + 1) := by
  refine ⟨⟨rfl, rfl, rfl, rfl⟩, ⟨rfl, rfl, ?_, rfl, rfl, rfl⟩, rfl, rfl, rfl, rfl⟩
  simp only [executeRebuild]
  rw [if_pos (by omega)]

/-- C1 witness: the average-update clause of the amended claim evaluated on
the concrete state. -/
theorem c1_witness :
    0 ≤ st0.stats.rebuildsTriggered ∧
    (executeRebuild 7 st0).stats.avgUpdatesPerRebuild =
      (st0.stats.totalUpdates : Rat) / ((st0.stats.rebuildsTriggered + 1 : Int) : Rat) :=
  ⟨by decide,
    (c1_scheduler_rebuild_effects (fun _ => 0) (fun _ => true) 2 ["u1", "u2"] 9 7 st0
      (by decide)).2.1.2.2.1⟩

/-- C4: with `page ≥ 1` and `limit ≥ 1`, `GetLeaderboard` returns at most
`limit` entries together with the total, returns the empty sequence when
`(page-1)*limit ≥ total`, and concatenating the pages in order reproduces
the snapshot's ordered entries exactly. -/
theorem c4_pagination (s : Snapshot) (limit : Int) (hl : 1 ≤ limit) :
    (∀ page : Int, 1 ≤ page → ∃ res : List RankedEntry,
        getLeaderboard s page limit = some (res, (s.entries.length : Int)) ∧
        (res.length : Int) ≤ limit ∧
        ((page - 1) * limit ≥ (s.entries.length : Int) → res = [])) ∧
    (∀ n : Nat, ((List.range n).flatMap fun k => pageEntries s limit ((k : Int) + 1))
        = s.entries.take (n * limit.toNat)) ∧
    (∀ n : Nat, (s.entries.length : Int) ≤ (n : Int) * limit →
        ((List.range n).flatMap fun k => pageEntries s limit ((k : Int) + 1))
          = s.entries) := by
  refine ⟨?_, pages_concat s limit hl, ?_⟩
  · intro page hp
    refine ⟨(s.entries.drop ((page - 1) * limit).toNat).take limit.toNat,
      getLeaderboard_eq_of_pos s page limit hp hl, ?_, ?_⟩
    · have hlen := List.length_take limit.toNat (s.entries.drop ((page - 1) * limit).toNat)
      omega
    · intro hge
      have hdrop : s.entries.drop ((page - 1) * limit).toNat = [] :=
        List.drop_eq_nil_of_le (by omega)
      rw [hdrop, List.take_nil]
  · intro n hn
    rw [pages_concat s limit hl n]
    apply List.take_of_length_le
    have h2 : ((limit.toNat : Int)) = limit := Int.toNat_of_nonneg (by omega)
    have hcast : ((n * limit.toNat : Nat) : Int) = (n : Int) * limit := by
      push_cast
      rw [h2]
    have h3 : (s.entries.length : Int) ≤ ((n * limit.toNat : Nat) : Int) := by
      rw [hcast]
      exact hn
    exact_mod_cast h3

/-- C4 witness: two pages of size 2 reproduce the whole concrete
three-entry snapshot. -/
theorem c4_witness :
    (1 : Int) ≤ 2 ∧
    ((rebuild exampleABC).entries.length : Int) ≤ (2 : Nat) * 2 ∧
    ((List.range 2).flatMap fun k => pageEntries (rebuild exampleABC) 2 ((k : Int) + 1))
      = (rebuild exampleABC).entries :=
  ⟨by decide, by decide,
    (c4_pagination (rebuild exampleABC) 2 (by decide)).2.2 2 (by decide)⟩

/-- C5: a score outside the inclusive range 100..5000 makes `CreateUser`
and `UpdateScore` return the validation error synchronously with the whole
service state (cache, snapshot, scheduler counters, timer) unchanged. -/
theorem c5_validation_rejects_out_of_range {ε : Type} (dbRes : Except ε String)
    (hexRes : Except ε Unit) (dbRes2 : Except ε Entry) (username userID : String)
    (score now : Int) (s : SState) (h : score < 100 ∨ score > 5000) :
    createUser dbRes username score now s
        = (.error (.validation "Score must be between 100 and 5000"), s) ∧
    updateScore hexRes dbRes2 userID score now s
        = (.error (.validation "Score must be between 100 and 5000"), s) := by
  constructor
  · unfold createUser
    rw [if_pos h]
  · unfold updateScore
    rw [if_pos h]

/-- C5 witness: score 5001 is rejected with the state unchanged. -/
theorem c5_witness :
    ((5001 : Int) < 100 ∨ (5001 : Int) > 5000) ∧
    (createUser (.ok "u9" : Except Unit String) "bob" 5001 0 st0
        = (.error (.validation "Score must be between 100 and 5000"), st0) ∧
     updateScore (.ok () : Except Unit Unit)
        (.ok { username := "bob", score := 200 } : Except Unit Entry) "u1" 5001 0 st0
        = (.error (.validation "Score must be between 100 and 5000"), st0)) :=
  ⟨by decide,
    c5_validation_rejects_out_of_range (.ok "u9") (.ok ())
      (.ok { username := "bob", score := 200 }) "bob" "u1" 5001 0 st0 (by decide)⟩

/-- C6: a durable-store write failure during `CreateUser` or `UpdateScore`
is returned to the caller unmodified, with the cache, snapshot and
scheduler untouched — the whole service state is returned as it was. -/
theorem c6_store_failure_propagates {ε : Type} (e : ε) (username userID : String)
    (score now : Int) (s : SState) (h1 : 100 ≤ score) (h2 : score ≤ 5000) :
    createUser (Except.error e) username score now s = (.error (.store e), s) ∧
    updateScore (Except.ok ()) (Except.error e) userID score now s
        = (.error (.store e), s) := by
  constructor
  · unfold createUser
    rw [if_neg (by omega)]
  · unfold updateScore
    rw [if_neg (by omega)]

/-- C6 witness: a failed durable write with a valid score propagates and
leaves the concrete state unchanged. -/
theorem c6_witness :
    ((100 : Int) ≤ 200 ∧ (200 : Int) ≤ 5000) ∧
    (createUser (Except.error () : Except Unit String) "bob" 200 0 st0
        = (.error (.store ()), st0) ∧
     updateScore (Except.ok () : Except Unit Unit)
        (Except.error () : Except Unit Entry) "u1" 200 0 st0
        = (.error (.store ()), st0)) :=
  ⟨⟨by decide, by decide⟩,
    c6_store_failure_propagates () "bob" "u1" 200 0 st0 (by decide) (by decide)⟩

/-- On a non-negative limit, `SearchByPrefix` returns the sorted matches
truncated to `limit` (the truncation is a no-op when everything fits). -/
lemma searchByPfx_eq_of_nonneg (data : List (String × Entry)) (pfx : String)
    (limit : Int) (hl : 0 ≤ limit) :
    searchByPfx data pfx limit =
      some ((List.insertionSort searchLE
        ((data.filter fun p => matchesPfx pfx p.2.username).map
          fun p => { userID := p.1, username := p.2.username, score := p.2.score
            : SearchResult })).take limit.toNat) := by
  simp only [searchByPfx]
  set sorted := List.insertionSort searchLE
    ((data.filter fun p => matchesPfx pfx p.2.username).map
      fun p => { userID := p.1, username := p.2.username, score := p.2.score
        : SearchResult }) with hs
  by_cases hgt : (sorted.length : Int) > limit
  · rw [if_pos hgt, if_pos hl]
  · rw [if_neg hgt, List.take_of_length_le (by omega)]

/-- C8 counterexample: with a matching entry and `limit = -1`, the Go
truncation `results[:limit]` panics instead of returning a sequence, so the
claim fails for negative limits. -/
theorem c8_counterexample :
    searchByPfx [("u1", { username := "ab", score := 500 })] "a" (-1) = none := by
  decide

/-- C8 (amended): for every prefix and every `limit ≥ 0`, `SearchByPrefix`
returns exactly the cache entries whose name matches the prefix
case-insensitively, sorted by score descending, truncated to at most
`limit` entries (negative limits panic on the Go slice). -/
theorem c8_search_filters_sorts_truncates (data : List (String × Entry))
    (pfx : String) (limit : Int) (hl : 0 ≤ limit) :
    ∃ res, searchByPfx data pfx limit = some res ∧
      (res.length : Int) ≤ limit ∧
      res.Pairwise (fun a b => b.score ≤ a.score) ∧
      ∃ full : List SearchResult, full.Perm ((data.filter fun p => matchesPfx pfx p.2.username).map
          fun p => { userID := p.1, username := p.2.username, score := p.2.score
            : SearchResult }) ∧
        full.Pairwise (fun a b => b.score ≤ a.score) ∧
        res = full.take limit.toNat := by
  set results := (data.filter fun p => matchesPfx pfx p.2.username).map
      fun p => { userID := p.1, username := p.2.username, score := p.2.score
        : SearchResult } with hres
  set sorted := List.insertionSort searchLE results with hsor
  have hperm : sorted.Perm results := List.perm_insertionSort searchLE results
  have hpair : sorted.Pairwise fun a b => b.score ≤ a.score :=
    (List.sorted_insertionSort searchLE results).imp fun h => (searchLE_iff _ _).mp h
  refine ⟨sorted.take limit.toNat, searchByPfx_eq_of_nonneg data pfx limit hl, ?_, ?_,
    sorted, hperm, hpair, rfl⟩
  · have hlen := List.length_take limit.toNat sorted
    omega
  · exact List.Pairwise.sublist (List.take_sublist limit.toNat sorted) hpair

/-- C8 witness: the amended claim on a concrete two-entry cache. -/
theorem c8_witness :
    (0 : Int) ≤ 5 ∧
    (∃ res, searchByPfx searchData "a" 5 = some res ∧
      (res.length : Int) ≤ 5 ∧
      res.Pairwise (fun a b => b.score ≤ a.score) ∧
      ∃ full : List SearchResult, full.Perm ((searchData.filter fun p => matchesPfx "a" p.2.username).map
          fun p => { userID := p.1, username := p.2.username, score := p.2.score
            : SearchResult }) ∧
        full.Pairwise (fun a b => b.score ≤ a.score) ∧
        res = full.take (5 : Int).toNat) :=
  ⟨by decide, c8_search_filters_sorts_truncates searchData "a" 5 (by decide)⟩

/-- C9: under `page ≥ 1` and `limit ≥ 1` the slice bounds inside
`GetLeaderboard` always hold (the panic branch is unreachable), while for
`page < 1` a negative `start` can pass the `start ≥ total` guard on a
non-empty snapshot and reach the out-of-bounds slice. -/
theorem c9_slice_bounds :
    (∀ (s : Snapshot) (page limit : Int), 1 ≤ page → 1 ≤ limit →
        (getLeaderboard s page limit).isSome = true) ∧
    (getLeaderboard (rebuild exampleABC) 0 5 = none ∧
      ¬ ((0 - 1) * 5 ≥ (((rebuild exampleABC).entries.length : Nat) : Int))) := by
  refine ⟨?_, by decide, by decide⟩
  intro s page limit hp hl
  rw [getLeaderboard_eq_of_pos s page limit hp hl]
  rfl

/-- C9 witness: a concrete in-range page is produced without hitting the
slice-panic branch. -/
theorem c9_witness :
    (1 : Int) ≤ 1 ∧ (1 : Int) ≤ 2 ∧
    (getLeaderboard (rebuild exampleABC) 1 2).isSome = true :=
  ⟨by decide, by decide, c9_slice_bounds.1 (rebuild exampleABC) 1 2 (by decide) (by decide)⟩

/-- C10: every score `BulkUpdateRandom` sends to the durable store is
`rand.Intn(4901) + 100`, hence inside 100..5000, and if every cache score
was in range before the bulk update then every cache score is in range
after it — bulk random updates preserve the score-range invariant without
explicit validation. -/
theorem c10_bulk_scores_in_range (draws : Nat → Nat) (oks : Nat → Bool)
    (count : Int) (ids : List String) (now : Int) (s : SState)
    (hc : ∀ p ∈ s.cache, 100 ≤ p.2.score ∧ p.2.score ≤ 5000) :
    (∀ w ∈ (bulkUpdateRandom draws oks count ids now s).2.2, 100 ≤ w ∧ w ≤ 5000) ∧
    (∀ p ∈ (bulkUpdateRandom draws oks count ids now s).1.cache,
      100 ≤ p.2.score ∧ p.2.score ≤ 5000) := by
  have h := bulkLoop_range draws oks
    (ids.take (if count > (ids.length : Int) then (ids.length : Int) else count).toNat)
    0 s.cache hc
  exact ⟨fun w hw => h.1 w hw, fun p hp => h.2 p hp⟩

/-- C10 witness: the in-range write scores on a concrete bulk update. -/
theorem c10_witness :
    (∀ p ∈ st0.cache, 100 ≤ p.2.score ∧ p.2.score ≤ 5000) ∧
    (∀ w ∈ (bulkUpdateRandom (fun _ => 7) (fun _ => true) 2 ["u1", "u2"] 9 st0).2.2,
      100 ≤ w ∧ w ≤ 5000) :=
  ⟨by decide,
    (c10_bulk_scores_in_range (fun _ => 7) (fun _ => true) 2 ["u1", "u2"] 9 st0 (by decide)).1⟩
